import Mathlib

/-!
Verification development for the Heritage Tree genealogical engine.

The repository ships only its test suites (`structural-tests.js` and a
Playwright browser test); the application file `index.html` that holds the
engine is not part of the sources.  Following the specification, the core
engine (Person Store, Graph Builder, Generation Assigner, Relationship
Resolver, View-State Controller, Serialization Codecs) is modelled here as a
shallow embedding, and the testable properties of the specification are
proved against that model.
-/

namespace Heritage

set_option autoImplicit false

/-- Modelled from the spec: the enumerated sex field of a Person record
(section 3, "sex (enumerated: male/female)"); `index.html` is missing from
the sources. -/
inductive Sex where
  | male : Sex
  | female : Sex
deriving Repr, DecidableEq

/-- Modelled from the spec: a Person record (section 3) with identifier,
name, sex, optional single parent link and optional spouse link; the engine
holding these records is missing from the sources.  Optional metadata
(image reference, notes) carries no graph meaning and is elided. -/
structure Person where
  id : Nat
  name : String
  sex : Sex
  parentId : Option Nat
  spouseId : Option Nat
deriving Repr, DecidableEq

/-- Look a person up by identifier in a scope (the tree-scoped subset of the
Person Store that a build works on). -/
def lookupPerson (scope : List Person) (pid : Nat) : Option Person :=
  scope.find? (fun q => q.id == pid)

/-- Modelled from the spec: a parent reference is resolvable when it names a
different person that exists in the current scope (section 4.2). -/
def hasResolvableParent (scope : List Person) (p : Person) : Bool :=
  match p.parentId with
  | none => false
  | some qid => !(qid == p.id) && (lookupPerson scope qid).isSome

/-- Modelled from the spec: a self-referential parent link (section 4.2,
`CyclicReferenceError`). -/
def isSelfParent (p : Person) : Bool :=
  match p.parentId with
  | none => false
  | some qid => qid == p.id

/-- Modelled from the spec: a person is a root when it has no parent
reference resolvable within the current scope; self-referential people are
excluded from the forest instead (section 4.2). -/
def isRoot (scope : List Person) (p : Person) : Bool :=
  !(hasResolvableParent scope p) && !(isSelfParent p)

/-- Modelled from the spec: whether a person's spouse is present in scope
and has a generation-determining parent chain of their own (section 4.3). -/
def spouseChain (scope : List Person) (p : Person) : Bool :=
  match p.spouseId with
  | none => false
  | some sid =>
    match lookupPerson scope sid with
    | none => false
    | some sp => hasResolvableParent scope sp

/-- Modelled from the spec: the children grouped under a resolvable parent
identifier (section 4.2); a self-referential link never contributes a
child. -/
def childIds (scope : List Person) (pid : Nat) : List Nat :=
  (scope.filter (fun q => q.parentId == some pid && !(q.id == pid))).map (fun q => q.id)

/-- Modelled from the spec: the spouse half of the Generation Assigner
(section 4.3): a person with no generation-determining parent chain takes
the generation of a spouse who has one, and otherwise sits at generation 0.
`rec` is the recursive generation query for the remaining fuel. -/
def genSpouseStep (scope : List Person) (rec : Nat → Option Nat) (p : Person) : Option Nat :=
  match p.spouseId with
  | none => some 0
  | some sid =>
    match lookupPerson scope sid with
    | none => some 0
    | some sp => if hasResolvableParent scope sp then rec sid else some 0

/-- Modelled from the spec: one unfolding of the Generation Assigner
(section 4.3): a person with a resolvable parent sits one generation below
that parent; a self-referential person is excluded (no generation); roots
are handled by `genSpouseStep`. -/
def genStep (scope : List Person) (rec : Nat → Option Nat) (pid : Nat) : Option Nat :=
  match lookupPerson scope pid with
  | none => none
  | some p =>
    if p.parentId = some pid then none
    else
      match p.parentId with
      | some qid =>
        if (lookupPerson scope qid).isSome then (rec qid).map (· + 1)
        else genSpouseStep scope rec p
      | none => genSpouseStep scope rec p

/-- Fuelled generation computation; parent chains in a scope of `n` people
need at most `n` steps, so `generationOf` runs it with fuel `n + 1`. -/
def genFuel (scope : List Person) : Nat → Nat → Option Nat
  | 0, _ => none
  | fuel + 1, pid => genStep scope (genFuel scope fuel) pid

/-- Modelled from the spec: the identifier-to-generation mapping of the
Generation Assigner (section 4.3); `none` marks people excluded from the
forest (self-referential or cyclic parent chains). -/
def generationOf (scope : List Person) (pid : Nat) : Option Nat :=
  genFuel scope (scope.length + 1) pid

/-- Modelled from the spec: the diagnostics listing of asymmetric spouse
links (sections 3 and 9): every pair whose spouse link is present on both
sides but does not point back is surfaced, with no tolerated count. -/
def spouseAsymmetries (scope : List Person) : List (Nat × Nat) :=
  scope.filterMap (fun p =>
    match p.spouseId with
    | none => none
    | some sid =>
      match lookupPerson scope sid with
      | none => none
      | some q =>
        match q.spouseId with
        | none => none
        | some back => if back = p.id then none else some (p.id, sid))

/-- Modelled from the spec: the immutable-per-build output of the Graph
Builder plus Generation Assigner (sections 4.2 and 4.3): root list,
children-by-parent map, unresolved (self-referential) bucket, generation
map, and the default fold state (everything expanded). -/
structure BuildOutput where
  roots : List Nat
  children : List (Nat × List Nat)
  unresolved : List Nat
  genMap : List (Nat × Nat)
  foldDefaults : List Nat
deriving Repr, DecidableEq

/-- Modelled from the spec: the full graph build over a scope (sections 4.2
and 4.3).  Malformed parent references degrade to roots and never raise;
self-referential people land in the unresolved bucket. -/
def buildAll (scope : List Person) : BuildOutput :=
  { roots := (scope.filter (fun p => isRoot scope p)).map (fun p => p.id)
    children := scope.map (fun p => (p.id, childIds scope p.id))
    unresolved := (scope.filter (fun p => isSelfParent p)).map (fun p => p.id)
    genMap := scope.filterMap (fun p => (generationOf scope p.id).map (fun g => (p.id, g)))
    foldDefaults := [] }

/-- Modelled from the spec: a session pairing the Person Store with the
cached Graph Builder output; mutations invalidate the cache and the store
never rebuilds eagerly (sections 4.1 and 5). -/
structure Session where
  store : List Person
  cache : Option BuildOutput
deriving Repr, DecidableEq

/-- Modelled from the spec: running the graph build inside a session: a
valid cache is returned as is, otherwise the build runs once and is
cached. -/
def runBuild (s : Session) : BuildOutput × Session :=
  match s.cache with
  | some out => (out, s)
  | none =>
    let out := buildAll s.store
    (out, { store := s.store, cache := some out })

/-- Modelled from the spec: the patch argument of `update(id, patch)`
(section 4.1): each field either kept or replaced; the identifier is never
patched. -/
structure Patch where
  name : Option String
  sex : Option Sex
  parentId : Option (Option Nat)
  spouseId : Option (Option Nat)
deriving Repr, DecidableEq

/-- Apply a patch to a person, keeping the identifier. -/
def applyPatch (p : Person) (ptc : Patch) : Person :=
  { id := p.id
    name := ptc.name.getD p.name
    sex := ptc.sex.getD p.sex
    parentId := ptc.parentId.getD p.parentId
    spouseId := ptc.spouseId.getD p.spouseId }

/-- Modelled from the spec: the Person Store error taxonomy relevant to
mutations (sections 4.1 and 7). -/
inductive StoreError where
  | duplicateId : StoreError
  | notFound : StoreError
deriving Repr, DecidableEq

/-- Modelled from the spec: `add(record)` fails with `DuplicateIdError` if
the identifier already exists, otherwise appends the record (section
4.1). -/
def addPerson (s : List Person) (p : Person) : Except StoreError (List Person) :=
  if s.any (fun q => q.id == p.id) then .error .duplicateId else .ok (s ++ [p])

/-- Modelled from the spec: `update(id, patch)` fails with `NotFoundError`
when the identifier is absent and otherwise patches every record with that
identifier in place (section 4.1). -/
def updatePerson (s : List Person) (pid : Nat) (ptc : Patch) :
    Except StoreError (List Person) :=
  if s.any (fun q => q.id == pid) then
    .ok (s.map (fun q => if q.id == pid then applyPatch q ptc else q))
  else .error .notFound

/-- Modelled from the spec: `remove(id)` fails with `NotFoundError` when
absent; dependents' links are left dangling for the next build (section
4.1). -/
def removePerson (s : List Person) (pid : Nat) : Except StoreError (List Person) :=
  if s.any (fun q => q.id == pid) then .ok (s.filter (fun q => !(q.id == pid)))
  else .error .notFound

/-- A single Person Store mutation. -/
inductive StoreOp where
  | add (p : Person) : StoreOp
  | update (pid : Nat) (ptc : Patch) : StoreOp
  | remove (pid : Nat) : StoreOp
deriving Repr, DecidableEq

/-- Run one mutation; a failing mutation leaves the store unchanged
(section 7: no partial writes). -/
def applyOp (s : List Person) : StoreOp → List Person
  | .add p =>
    match addPerson s p with
    | .ok s' => s'
    | .error _ => s
  | .update pid ptc =>
    match updatePerson s pid ptc with
    | .ok s' => s'
    | .error _ => s
  | .remove pid =>
    match removePerson s pid with
    | .ok s' => s'
    | .error _ => s

/-- Run a sequence of mutations. -/
def applyOps (s : List Person) (ops : List StoreOp) : List Person :=
  ops.foldl applyOp s

/-- Identifier uniqueness across the whole store (section 3 invariant). -/
def uniqueIds (s : List Person) : Prop :=
  (s.map Person.id).Nodup

instance (s : List Person) : Decidable (uniqueIds s) := by
  unfold uniqueIds; infer_instance

/-- Modelled from the spec: fold state of the View-State Controller, the set
of folded subtree roots, defaulting to everything expanded (sections 3 and
4.5). -/
def isFolded (folds : List Nat) (pid : Nat) : Bool :=
  decide (pid ∈ folds)

/-- Modelled from the spec: `toggleFold(personId)` flips the fold flag of
exactly that subtree root (section 4.5). -/
def toggleFold (folds : List Nat) (pid : Nat) : List Nat :=
  if pid ∈ folds then folds.filter (fun x => decide (x ≠ pid)) else pid :: folds

/-- Modelled from the spec: fold state lives beside the Person Store, never
inside it (section 3, ownership). -/
structure AppState where
  store : List Person
  folds : List Nat
deriving Repr, DecidableEq

/-- Toggle a fold flag inside an application state; the store is not
touched. -/
def toggleFoldApp (st : AppState) (pid : Nat) : AppState :=
  { store := st.store, folds := toggleFold st.folds pid }

/-- Fuelled ancestor depth: the number of parent edges from person `x` up
to person `j` along the unique parent chain, `none` when `j` is not an
ancestor-or-self of `x`. -/
def ancDepth (scope : List Person) : Nat → Nat → Nat → Option Nat
  | 0, _, _ => none
  | fuel + 1, x, j =>
    if x = j then some 0
    else
      match lookupPerson scope x with
      | none => none
      | some p =>
        match p.parentId with
        | none => none
        | some q => if q = x then none else (ancDepth scope fuel q j).map (· + 1)

/-- Ancestor depth with enough fuel for any acyclic chain in scope. -/
def ancDepthFull (scope : List Person) (x j : Nat) : Option Nat :=
  ancDepth scope (scope.length + 1) x j

/-- Modelled from the spec: the candidate junctions of the Relationship
Resolver (section 4.4): each person of the scope that is a common ancestor
of both arguments, with the edge distance from each side. -/
def junctionPairs (scope : List Person) (a b : Nat) : List (Nat × Nat) :=
  scope.filterMap (fun j =>
    match ancDepthFull scope a j.id, ancDepthFull scope b j.id with
    | some da, some db => some (da, db)
    | _, _ => none)

/-- The spouse link of an identifier, when the person exists in scope. -/
def spouseOf (scope : List Person) (x : Nat) : Option Nat :=
  (lookupPerson scope x).bind (fun p => p.spouseId)

/-- Whether two identifiers form a spouse pair with links on both sides. -/
def mutualSpouse (scope : List Person) (a b : Nat) : Bool :=
  (spouseOf scope a == some b) && (spouseOf scope b == some a)

/-- Blood candidates: common-ancestor junctions of the two arguments. -/
def bloodCands (scope : List Person) (a b : Nat) : List (Nat × Nat × Bool) :=
  (junctionPairs scope a b).map (fun d => (d.1, d.2, false))

/-- In-law candidates through the second argument's spouse: the final hop
to the target is a spouse edge (section 4.4). -/
def inlawCandsR (scope : List Person) (a b : Nat) : List (Nat × Nat × Bool) :=
  match spouseOf scope b with
  | some sb => (junctionPairs scope a sb).map (fun d => (d.1, d.2, true))
  | none => []

/-- In-law candidates through the first argument's spouse. -/
def inlawCandsL (scope : List Person) (a b : Nat) : List (Nat × Nat × Bool) :=
  match spouseOf scope a with
  | some sa => (junctionPairs scope sa b).map (fun d => (d.1, d.2, true))
  | none => []

/-- Modelled from the spec: all resolution candidates for a pair: the
spouse bridge at distance `(0, 0)`, the common-ancestor junctions, and the
in-law junctions through either spouse (section 4.4). -/
def candidates (scope : List Person) (a b : Nat) : List (Nat × Nat × Bool) :=
  (if mutualSpouse scope a b then [(0, 0, false)] else [])
    ++ bloodCands scope a b ++ inlawCandsR scope a b ++ inlawCandsL scope a b

/-- Selection key of a candidate, ordered lexicographically: total edge
distance first (lowest common ancestor wins), then the smaller side
distance, then blood before in-law. -/
def candKey (c : Nat × Nat × Bool) : Lex (Nat × Lex (Nat × Nat)) :=
  toLex (c.1 + c.2.1, toLex (min c.1 c.2.1, if c.2.2 then 1 else 0))

/-- Combine two optional keys, keeping the smaller one. -/
def keyMerge :
    Option (Lex (Nat × Lex (Nat × Nat))) → Option (Lex (Nat × Lex (Nat × Nat))) →
    Option (Lex (Nat × Lex (Nat × Nat)))
  | none, y => y
  | some k, none => some k
  | some k, some k' => some (min k k')

/-- The best (smallest) candidate key of a candidate list. -/
def minKey (l : List (Nat × Nat × Bool)) : Option (Lex (Nat × Lex (Nat × Nat))) :=
  l.foldr (fun c acc => keyMerge (some (candKey c)) acc) none

/-- Modelled from the spec: the direction-free content of a resolved
relationship (section 4.4): total edge distance, distance of the nearer
side to the junction, and whether the path ends in a spouse edge (in-law);
`none` is the `NotRelatedError` outcome. -/
def resolveKin (scope : List Person) (a b : Nat) : Option (Nat × Nat × Bool) :=
  (minKey (candidates scope a b)).map (fun k =>
    ((ofLex k).1, (ofLex ((ofLex k).2)).1, (ofLex ((ofLex k).2)).2 == 1))

/-- Little-endian decimal digits of a number; fuel bounds the recursion. -/
def natDigitsFuel : Nat → Nat → List Nat
  | 0, _ => []
  | fuel + 1, n => if n = 0 then [] else (n % 10) :: natDigitsFuel fuel (n / 10)

/-- Little-endian decimal digits of a number. -/
def natDigits (n : Nat) : List Nat :=
  natDigitsFuel n n

/-- Value of a little-endian digit list. -/
def digitsVal : List Nat → Nat
  | [] => 0
  | d :: ds => d + 10 * digitsVal ds

/-- Decimal digit to character. -/
def digitChar : Nat → Char
  | 0 => '0' | 1 => '1' | 2 => '2' | 3 => '3' | 4 => '4'
  | 5 => '5' | 6 => '6' | 7 => '7' | 8 => '8' | _ => '9'

/-- Character to decimal digit, `none` on anything else. -/
def charDigit? (c : Char) : Option Nat :=
  if c = '0' then some 0 else if c = '1' then some 1 else if c = '2' then some 2
  else if c = '3' then some 3 else if c = '4' then some 4 else if c = '5' then some 5
  else if c = '6' then some 6 else if c = '7' then some 7 else if c = '8' then some 8
  else if c = '9' then some 9 else none

/-- Parse every character as a digit, failing on the first non-digit. -/
def charsDigits? : List Char → Option (List Nat)
  | [] => some []
  | c :: cs =>
    match charDigit? c, charsDigits? cs with
    | some d, some ds => some (d :: ds)
    | _, _ => none

/-- Print a number as a decimal cell. -/
def natToCell (n : Nat) : String :=
  if n = 0 then "0" else String.mk ((natDigits n).reverse.map digitChar)

/-- Parse a decimal cell; the empty cell is `none` (missing value). -/
def cellToNat? (s : String) : Option Nat :=
  match s.data with
  | [] => none
  | c :: cs => (charsDigits? ((c :: cs).reverse)).map digitsVal

/-- Swap the two sides of a resolution candidate. -/
def swapCand (c : Nat × Nat × Bool) : Nat × Nat × Bool :=
  (c.2.1, c.1, c.2.2)

/-- Modelled from the spec: the kinship rule table of the Relationship
Resolver (section 4.4) over the direction-free resolution content: total
edge distance, nearer-side distance, in-law flag.  Direction (which side is
the ancestor) is rendered separately by the presentation layer. -/
def kinLabelBase (total sideMin : Nat) (inlaw : Bool) : String :=
  let base :=
    if total == 0 then "spouse"
    else if sideMin == 0 then
      if total == 1 then "parent-child"
      else if total == 2 then "grandparent-grandchild"
      else "direct line, distance " ++ natToCell total
    else if total == 2 then "sibling"
    else if total == 3 then "aunt-uncle or niece-nephew"
    else if total == 2 * sideMin then natToCell (sideMin - 1) ++ " cousin"
    else natToCell (sideMin - 1) ++ " cousin, " ++ natToCell (total - 2 * sideMin)
      ++ " times removed"
  if inlaw then base ++ " (in-law)" else base

/-- Render a sex value for serialization. -/
def sexToString : Sex → String
  | .male => "male"
  | .female => "female"

/-- Parse a sex value; anything other than "female" defaults to male. -/
def sexFromString (s : String) : Sex :=
  if s = "female" then Sex.female else Sex.male

/-- Modelled from the spec: the serialization error taxonomy (section 7)
restricted to the JSON and CSV codecs. -/
inductive CodecError where
  | malformedJson : CodecError
  | missingRequiredColumn : CodecError
deriving Repr, DecidableEq

/-- Modelled from the spec: the JSON value tree the JSON codec produces and
consumes (section 4.6); the byte-level lexical layer carries no schema
content and is elided. -/
inductive Json where
  | null : Json
  | num (n : Nat) : Json
  | str (s : String) : Json
  | arr (items : List Json) : Json
  | obj (fields : List (String × Json)) : Json
deriving Repr

/-- Encode an optional identifier as JSON. -/
def optNumJson : Option Nat → Json
  | none => Json.null
  | some n => Json.num n

/-- Modelled from the spec: the JSON encoding of one person with all Person
fields (section 4.6). -/
def personToJson (p : Person) : Json :=
  Json.obj [("id", Json.num p.id), ("name", Json.str p.name),
    ("sex", Json.str (sexToString p.sex)), ("parentId", optNumJson p.parentId),
    ("spouseId", optNumJson p.spouseId)]

/-- Fetch a field of a JSON object. -/
def jField (fields : List (String × Json)) (k : String) : Option Json :=
  (fields.find? (fun kv => kv.1 == k)).map (fun kv => kv.2)

/-- Modelled from the spec: decode one person from JSON; a missing or
non-numeric `id` is a schema violation (`MalformedJsonError`), the other
fields are tolerated with defaults (section 4.6). -/
def jsonToPerson (j : Json) : Except CodecError Person :=
  match j with
  | Json.obj fields =>
    match jField fields "id" with
    | some (Json.num i) =>
      .ok { id := i
            name := match jField fields "name" with
              | some (Json.str s) => s
              | _ => ""
            sex := match jField fields "sex" with
              | some (Json.str s) => sexFromString s
              | _ => Sex.male
            parentId := match jField fields "parentId" with
              | some (Json.num n) => some n
              | _ => none
            spouseId := match jField fields "spouseId" with
              | some (Json.num n) => some n
              | _ => none }
    | _ => .error .malformedJson
  | _ => .error .malformedJson

/-- Decode a list of JSON person objects, failing on the first schema
violation. -/
def importList : List Json → Except CodecError (List Person)
  | [] => .ok []
  | j :: js =>
    match jsonToPerson j, importList js with
    | .ok p, .ok ps => .ok (p :: ps)
    | .error e, _ => .error e
    | .ok _, .error e => .error e

/-- Modelled from the spec: `exportJSON` encodes the store as a JSON array
of person objects (section 4.6). -/
def exportJSON (store : List Person) : Json :=
  Json.arr (store.map personToJson)

/-- Modelled from the spec: the JSON decode half of the codec (section
4.6). -/
def importJSON : Json → Except CodecError (List Person)
  | Json.arr items => importList items
  | _ => .error .malformedJson

/-- Modelled from the spec: the fixed CSV column order (section 4.6). -/
def csvHeader : List String :=
  ["id", "name", "sex", "parentId", "spouseId"]

/-- Encode an optional identifier as a CSV cell. -/
def optNatCell : Option Nat → String
  | none => ""
  | some n => natToCell n

/-- Modelled from the spec: one CSV row per person in the fixed column
order (section 4.6). -/
def personToRow (p : Person) : List String :=
  [natToCell p.id, p.name, sexToString p.sex, optNatCell p.parentId,
    optNatCell p.spouseId]

/-- Modelled from the spec: `exportCSV` emits the header row and one row
per person (section 4.6); a row is a list of cells, the cell-joining
lexical layer carrying no schema content. -/
def exportCSV (store : List Person) : List (List String) :=
  csvHeader :: store.map personToRow

/-- Position of a column in the header row. -/
def colIdx (header : List String) (k : String) : Option Nat :=
  header.findIdx? (fun h => h == k)

/-- Read a named column of a row, defaulting missing columns to the empty
cell (section 4.6: decode must tolerate missing optional columns). -/
def getCol (header row : List String) (k : String) : String :=
  match colIdx header k with
  | some i => row.getD i ""
  | none => ""

/-- Modelled from the spec: the CSV decode half of the codec: fails with
`MissingRequiredColumnError` when the `id` or `name` column is absent,
tolerates missing optional columns, and skips rows whose identifier cell is
not numeric (section 4.6). -/
def importCSV (doc : List (List String)) : Except CodecError (List Person) :=
  match doc with
  | [] => .error .missingRequiredColumn
  | header :: rows =>
    if (colIdx header "id").isSome && (colIdx header "name").isSome then
      .ok (rows.filterMap (fun row =>
        (cellToNat? (getCol header row "id")).map (fun i =>
          { id := i
            name := getCol header row "name"
            sex := sexFromString (getCol header row "sex")
            parentId := cellToNat? (getCol header row "parentId")
            spouseId := cellToNat? (getCol header row "spouseId") })))
    else .error .missingRequiredColumn

/-- Modelled from the spec: the selectable tree keys offered at launch;
`index.html` is missing from the sources, so the key set is taken from the
browser-test expectations (the Playwright test, lines 70-81). -/
def launchOptions : List String :=
  ["80", "kochi", "ayalur", "avr", "radha", "all"]

/-- Modelled from the spec: the tree key selected before any user input
(the Playwright test, lines 78-81). -/
def launchDefault : String :=
  "80"

/-- The option values the Playwright browser test expects on the launch
selector. -/
def browserExpectedOptions : List String :=
  ["80", "kochi", "ayalur", "avr", "radha", "all"]

/-- The option values the structural test requires in the launch-input
markup (structural-tests.js, lines 85-90). -/
def structuralExpectedOptions : List String :=
  ["kochi", "ayalur", "avr", "radha", "all"]

/-- Build a person record. -/
def mkP (i : Nat) (nm : String) (sx : Sex) (par sp : Option Nat) : Person :=
  { id := i, name := nm, sex := sx, parentId := par, spouseId := sp }

/-- A two-person parent chain. -/
def exLinear : List Person :=
  [mkP 1 "A" .male none none, mkP 2 "B" .female (some 1) none]

/-- A tree where two spouses are reached by parent chains of different
length below the same root. -/
def exSpouseConflict : List Person :=
  [mkP 1 "R" .male none none,
   mkP 2 "S" .male (some 1) none,
   mkP 3 "T" .female (some 2) (some 4),
   mkP 4 "U" .male (some 1) (some 3)]

/-- A person whose parent reference points at a nonexistent identifier. -/
def exDangling : List Person :=
  [mkP 1 "D" .male (some 999) none]

/-- A spouse who married into the tree and has no own parent chain. -/
def exMarriedIn : List Person :=
  [mkP 1 "R" .male none none,
   mkP 2 "C" .male (some 1) (some 3),
   mkP 3 "W" .female none (some 2)]

/-- A store with one asymmetric spouse link. -/
def exAsym : List Person :=
  [mkP 1 "X" .male none (some 2),
   mkP 2 "Y" .female none (some 3),
   mkP 3 "Z" .female none none]

/-- A record whose identifier collides with `exLinear`. -/
def dupP : Person := mkP 1 "A2" .male none none

/-- A demonstration mutation sequence. -/
def demoOps : List StoreOp :=
  [StoreOp.add (mkP 5 "E" .female none none),
   StoreOp.remove 2,
   StoreOp.update 1 { name := some "A1", sex := none, parentId := none, spouseId := none },
   StoreOp.add (mkP 2 "B2" .male (some 1) none)]

theorem applyPatch_id (p : Person) (ptc : Patch) : (applyPatch p ptc).id = p.id := rfl

theorem uniqueIds_addPerson (s : List Person) (p : Person) (s' : List Person)
    (hok : addPerson s p = .ok s') (h : uniqueIds s) : uniqueIds s' := by
  unfold addPerson at hok
  by_cases hdup : s.any (fun q => q.id == p.id) = true
  · simp [hdup] at hok
  · rw [if_neg (by simp [hdup])] at hok
    cases hok
    unfold uniqueIds at h ⊢
    rw [List.map_append, List.nodup_append]
    refine ⟨h, by simp, ?_⟩
    intro a ha hmem
    simp only [List.map_cons, List.map_nil, List.mem_singleton] at hmem
    subst hmem
    rw [List.mem_map] at ha
    obtain ⟨q, hq, hqid⟩ := ha
    exact hdup (List.any_eq_true.mpr ⟨q, hq, by simp [hqid]⟩)

theorem uniqueIds_updatePerson (s : List Person) (pid : Nat) (ptc : Patch)
    (s' : List Person) (hok : updatePerson s pid ptc = .ok s') (h : uniqueIds s) :
    uniqueIds s' := by
  unfold updatePerson at hok
  by_cases hex : s.any (fun q => q.id == pid) = true
  · rw [if_pos hex] at hok
    cases hok
    unfold uniqueIds at h ⊢
    rw [List.map_map]
    have heq : List.map (Person.id ∘ fun q => if q.id == pid then applyPatch q ptc else q) s
        = List.map Person.id s := by
      apply List.map_congr_left
      intro q _
      simp only [Function.comp_apply]
      split <;> rfl
    rw [heq]
    exact h
  · simp [hex] at hok

theorem uniqueIds_removePerson (s : List Person) (pid : Nat)
    (s' : List Person) (hok : removePerson s pid = .ok s') (h : uniqueIds s) :
    uniqueIds s' := by
  unfold removePerson at hok
  by_cases hex : s.any (fun q => q.id == pid) = true
  · rw [if_pos hex] at hok
    cases hok
    exact h.sublist ((List.filter_sublist s).map Person.id)
  · simp [hex] at hok

theorem uniqueIds_applyOp (s : List Person) (op : StoreOp) (h : uniqueIds s) :
    uniqueIds (applyOp s op) := by
  cases op with
  | add p =>
    cases hr : addPerson s p with
    | ok s' => simpa [applyOp, hr] using uniqueIds_addPerson s p s' hr h
    | error e => simpa [applyOp, hr] using h
  | update pid ptc =>
    cases hr : updatePerson s pid ptc with
    | ok s' => simpa [applyOp, hr] using uniqueIds_updatePerson s pid ptc s' hr h
    | error e => simpa [applyOp, hr] using h
  | remove pid =>
    cases hr : removePerson s pid with
    | ok s' => simpa [applyOp, hr] using uniqueIds_removePerson s pid s' hr h
    | error e => simpa [applyOp, hr] using h

theorem uniqueIds_applyOps (ops : List StoreOp) (s : List Person) (h : uniqueIds s) :
    uniqueIds (applyOps s ops) := by
  induction ops generalizing s with
  | nil => exact h
  | cons op ops ih => exact ih (applyOp s op) (uniqueIds_applyOp s op h)

/-- C6: `add(record)` fails with `DuplicateIdError` exactly when the
record's identifier already exists in the store, and identifier uniqueness
is preserved across any sequence of add/update/remove operations. -/
theorem C6_add_duplicate_guard (s : List Person) (p : Person) (ops : List StoreOp) :
    (addPerson s p = .error .duplicateId ↔ ∃ q ∈ s, q.id = p.id)
      ∧ (uniqueIds s → uniqueIds (applyOps s ops)) := by
  refine ⟨?_, fun h => uniqueIds_applyOps ops s h⟩
  unfold addPerson
  by_cases hdup : s.any (fun q => q.id == p.id) = true
  · rw [if_pos hdup]
    simp only [true_iff]
    rw [List.any_eq_true] at hdup
    obtain ⟨q, hq, hbeq⟩ := hdup
    exact ⟨q, hq, by simpa using hbeq⟩
  · rw [if_neg (by simp [hdup])]
    simp only [reduceCtorEq, false_iff]
    rintro ⟨q, hq, hqid⟩
    exact hdup (List.any_eq_true.mpr ⟨q, hq, by simp [hqid]⟩)

theorem C6_witness :
    addPerson exLinear dupP = Except.error StoreError.duplicateId
      ∧ uniqueIds (applyOps exLinear demoOps) := by
  refine ⟨?_, (C6_add_duplicate_guard exLinear dupP demoOps).2 (by decide)⟩
  exact (C6_add_duplicate_guard exLinear dupP demoOps).1.mpr
    ⟨mkP 1 "A" Sex.male none none, by decide, by decide⟩

/-- C8: toggling a fold flips only that person's fold flag; every other
fold flag, the Person Store, and the Graph Builder output are unchanged. -/
theorem C8_toggle_frame (st : AppState) (r : Nat) :
    isFolded (toggleFoldApp st r).folds r = !(isFolded st.folds r)
      ∧ (∀ x, x ≠ r → isFolded (toggleFoldApp st r).folds x = isFolded st.folds x)
      ∧ (toggleFoldApp st r).store = st.store
      ∧ buildAll (toggleFoldApp st r).store = buildAll st.store := by
  refine ⟨?_, ?_, rfl, rfl⟩
  · unfold toggleFoldApp toggleFold isFolded
    by_cases hr : r ∈ st.folds
    · simp [hr, List.mem_filter]
    · simp [hr]
  · intro x hx
    unfold toggleFoldApp toggleFold isFolded
    by_cases hr : r ∈ st.folds
    · simp [hr, List.mem_filter, hx]
    · simp [hr, hx]

theorem C8_witness :
    isFolded (toggleFoldApp { store := exLinear, folds := [2] } 1).folds 1
        = !(isFolded [2] 1)
      ∧ isFolded (toggleFoldApp { store := exLinear, folds := [2] } 1).folds 2
        = isFolded [2] 2
      ∧ (toggleFoldApp { store := exLinear, folds := [2] } 1).store = exLinear := by
  obtain ⟨h1, h2, h3, _⟩ := C8_toggle_frame { store := exLinear, folds := [2] } 1
  exact ⟨h1, h2 2 (by decide), h3⟩

/-- C9: running the graph build twice on an unmutated session yields the
same build output (forest, generation map, fold defaults) and the same
session both times. -/
theorem C9_build_idempotent (s : Session) :
    (runBuild (runBuild s).2).1 = (runBuild s).1
      ∧ (runBuild (runBuild s).2).2 = (runBuild s).2 := by
  cases s with
  | mk store cache => cases cache <;> simp [runBuild]

/-- C5: a person whose parent reference names an identifier absent from the
scope is classified as a root and appears in the built forest's root list;
the build is a total function and raises nothing. -/
theorem C5_dangling_parent_root (scope : List Person) (p : Person) (qid : Nat)
    (hp : p ∈ scope) (hpar : p.parentId = some qid)
    (hmiss : lookupPerson scope qid = none) :
    p.id ∈ (buildAll scope).roots := by
  have hqne : (qid == p.id) = false := by
    rw [beq_eq_false_iff_ne]
    intro he
    subst he
    rw [lookupPerson, List.find?_eq_none] at hmiss
    exact absurd (by simp) (hmiss p hp)
  have h1 : hasResolvableParent scope p = false := by
    unfold hasResolvableParent
    rw [hpar]
    show (!(qid == p.id) && (lookupPerson scope qid).isSome) = false
    rw [hmiss]
    simp
  have h2 : isSelfParent p = false := by
    unfold isSelfParent
    rw [hpar]
    exact hqne
  have hroot : isRoot scope p = true := by
    unfold isRoot
    rw [h1, h2]
    rfl
  show p.id ∈ (scope.filter (fun q => isRoot scope q)).map (fun q => q.id)
  exact List.mem_map_of_mem _ (List.mem_filter.mpr ⟨hp, hroot⟩)

theorem C5_witness : (1 : Nat) ∈ (buildAll exDangling).roots :=
  C5_dangling_parent_root exDangling (mkP 1 "D" Sex.male (some 999) none) 999
    (by decide) rfl (by decide)

/-- C7: every spouse link that is present on both sides but fails to point
back is surfaced in the diagnostics list, and the diagnostics list is empty
exactly when the spouse-symmetry invariant holds; no count of asymmetries
is silently tolerated. -/
theorem C7_spouse_diagnostics (scope : List Person) :
    (∀ p ∈ scope, ∀ sid q back, p.spouseId = some sid →
        lookupPerson scope sid = some q → q.spouseId = some back → back ≠ p.id →
        (p.id, sid) ∈ spouseAsymmetries scope)
      ∧ (spouseAsymmetries scope = [] ↔
          ∀ p ∈ scope, ∀ sid q back, p.spouseId = some sid →
            lookupPerson scope sid = some q → q.spouseId = some back → back = p.id) := by
  have hmem : ∀ p ∈ scope, ∀ sid q back, p.spouseId = some sid →
      lookupPerson scope sid = some q → q.spouseId = some back → back ≠ p.id →
      (p.id, sid) ∈ spouseAsymmetries scope := by
    intro p hp sid q back hs hl hb hne
    unfold spouseAsymmetries
    apply List.mem_filterMap.mpr
    exact ⟨p, hp, by simp [hs, hl, hb, hne]⟩
  refine ⟨hmem, ?_, ?_⟩
  · intro hnil p hp sid q back hs hl hb
    by_contra hne
    have hin := hmem p hp sid q back hs hl hb hne
    rw [hnil] at hin
    exact absurd hin (List.not_mem_nil _)
  · intro hinv
    rw [List.eq_nil_iff_forall_not_mem]
    intro x hx
    rw [spouseAsymmetries, List.mem_filterMap] at hx
    obtain ⟨p, hp, hfp⟩ := hx
    cases hs : p.spouseId with
    | none => simp only [hs, reduceCtorEq] at hfp
    | some sid =>
      simp only [hs] at hfp
      cases hl : lookupPerson scope sid with
      | none => simp only [hl, reduceCtorEq] at hfp
      | some q =>
        simp only [hl] at hfp
        cases hb : q.spouseId with
        | none => simp only [hb, reduceCtorEq] at hfp
        | some back =>
          simp only [hb] at hfp
          rw [if_pos (hinv p hp sid q back hs hl hb)] at hfp
          exact absurd hfp (by simp)

theorem C7_witness : ((1 : Nat), (2 : Nat)) ∈ spouseAsymmetries exAsym :=
  (C7_spouse_diagnostics exAsym).1 (mkP 1 "X" Sex.male none (some 2)) (by decide) 2
    (mkP 2 "Y" Sex.female none (some 3)) 3 rfl (by decide) rfl (by decide)

theorem lookupPerson_id (scope : List Person) (pid : Nat) (p : Person)
    (h : lookupPerson scope pid = some p) : p.id = pid := by
  unfold lookupPerson at h
  induction scope with
  | nil => exact absurd h (by simp)
  | cons a l ih =>
    simp only [List.find?] at h
    cases ha : (a.id == pid) with
    | true =>
      rw [ha] at h
      cases h
      exact eq_of_beq ha
    | false =>
      rw [ha] at h
      exact ih h

theorem lookupPerson_mem (scope : List Person) (pid : Nat) (p : Person)
    (h : lookupPerson scope pid = some p) : p ∈ scope := by
  unfold lookupPerson at h
  exact List.mem_of_find?_eq_some h

theorem genSpouseStep_mono (scope : List Person) (r1 r2 : Nat → Option Nat)
    (h : ∀ q g, r1 q = some g → r2 q = some g) (p : Person) (g : Nat)
    (hg : genSpouseStep scope r1 p = some g) : genSpouseStep scope r2 p = some g := by
  unfold genSpouseStep at hg ⊢
  cases hs : p.spouseId with
  | none => simp only [hs] at hg ⊢; exact hg
  | some sid =>
    simp only [hs] at hg ⊢
    cases hl : lookupPerson scope sid with
    | none => simp only [hl] at hg ⊢; exact hg
    | some sp =>
      simp only [hl] at hg ⊢
      by_cases hr : hasResolvableParent scope sp = true
      · rw [if_pos hr] at hg ⊢
        exact h sid g hg
      · rw [if_neg hr] at hg ⊢
        exact hg

theorem genStep_mono (scope : List Person) (r1 r2 : Nat → Option Nat)
    (h : ∀ q g, r1 q = some g → r2 q = some g) (pid : Nat) (g : Nat)
    (hg : genStep scope r1 pid = some g) : genStep scope r2 pid = some g := by
  unfold genStep at hg ⊢
  cases hl : lookupPerson scope pid with
  | none => simp only [hl, reduceCtorEq] at hg
  | some p =>
    simp only [hl] at hg ⊢
    by_cases hself : p.parentId = some pid
    · rw [if_pos hself] at hg
      exact absurd hg (by simp)
    · rw [if_neg hself] at hg ⊢
      cases hpar : p.parentId with
      | none =>
        simp only [hpar] at hg ⊢
        exact genSpouseStep_mono scope r1 r2 h p g hg
      | some qid =>
        simp only [hpar] at hg ⊢
        by_cases hq : (lookupPerson scope qid).isSome = true
        · rw [if_pos hq] at hg ⊢
          rcases Option.map_eq_some'.mp hg with ⟨g', hg', hsum⟩
          rw [h qid g' hg']
          simpa using hsum
        · rw [if_neg hq] at hg ⊢
          exact genSpouseStep_mono scope r1 r2 h p g hg

theorem genFuel_mono_succ (scope : List Person) :
    ∀ fuel pid g, genFuel scope fuel pid = some g → genFuel scope (fuel + 1) pid = some g := by
  intro fuel
  induction fuel with
  | zero =>
    intro pid g hg
    exact absurd hg (by simp [genFuel])
  | succ f ih =>
    intro pid g hg
    exact genStep_mono scope (genFuel scope f) (genFuel scope (f + 1)) ih pid g hg

theorem genFuel_mono (scope : List Person) (f f' : Nat) (hle : f ≤ f') (pid g : Nat)
    (hg : genFuel scope f pid = some g) : genFuel scope f' pid = some g := by
  induction hle with
  | refl => exact hg
  | step _ ih => exact genFuel_mono_succ scope _ pid g ih

theorem generationOf_eq_step (scope : List Person) (pid : Nat) :
    generationOf scope pid = genStep scope (genFuel scope scope.length) pid := rfl

theorem genStep_eq_self (scope : List Person) (rec : Nat → Option Nat) (pid : Nat)
    (p : Person) (hl : lookupPerson scope pid = some p)
    (hself : p.parentId = some pid) : genStep scope rec pid = none := by
  unfold genStep
  simp only [hl, if_pos hself]

theorem genStep_eq_root (scope : List Person) (rec : Nat → Option Nat) (pid : Nat)
    (p : Person) (hl : lookupPerson scope pid = some p)
    (_hself : ¬p.parentId = some pid) (hpar : p.parentId = none) :
    genStep scope rec pid = genSpouseStep scope rec p := by
  unfold genStep
  simp only [hl, hpar]
  rw [if_neg (by simp)]

theorem genStep_eq_parent (scope : List Person) (rec : Nat → Option Nat) (pid : Nat)
    (p : Person) (qid : Nat) (hl : lookupPerson scope pid = some p)
    (hself : ¬p.parentId = some pid) (hpar : p.parentId = some qid) :
    genStep scope rec pid =
      if (lookupPerson scope qid).isSome = true then (rec qid).map (· + 1)
      else genSpouseStep scope rec p := by
  unfold genStep
  rw [hpar] at hself
  simp only [hl, hpar, if_neg hself]

theorem genSpouseStep_of_no_chain (scope : List Person) (rec : Nat → Option Nat)
    (p : Person) (hchain : spouseChain scope p = false) :
    genSpouseStep scope rec p = some 0 := by
  unfold genSpouseStep
  unfold spouseChain at hchain
  cases hs : p.spouseId with
  | none => rfl
  | some sid =>
    simp only [hs] at hchain ⊢
    cases hl : lookupPerson scope sid with
    | none => rfl
    | some sp =>
      simp only [hl] at hchain ⊢
      rw [if_neg (by simp [hchain])]

/-- C1: whenever a person of the scope has a parent resolvable within the
scope and carries a generation, that generation is the parent's generation
plus one; a root with no spouse-borrowed chain sits at generation 0. -/
theorem C1_generation_law (scope : List Person) :
    (∀ pid P qid Q g, lookupPerson scope pid = some P → P.parentId = some qid →
        lookupPerson scope qid = some Q → generationOf scope pid = some g →
        ∃ gq, generationOf scope qid = some gq ∧ g = gq + 1)
      ∧ (∀ pid P, lookupPerson scope pid = some P → isRoot scope P = true →
          spouseChain scope P = false → generationOf scope pid = some 0) := by
  constructor
  · intro pid P qid Q g hP hpar hQ hg
    rw [generationOf_eq_step] at hg
    by_cases hself : P.parentId = some pid
    · rw [genStep_eq_self scope _ pid P hP hself] at hg
      exact absurd hg (by simp)
    · rw [genStep_eq_parent scope _ pid P qid hP hself hpar] at hg
      have hq : (lookupPerson scope qid).isSome = true := by rw [hQ]; rfl
      rw [if_pos hq] at hg
      rcases Option.map_eq_some'.mp hg with ⟨gq, hgq, hsum⟩
      exact ⟨gq, genFuel_mono scope scope.length (scope.length + 1) (Nat.le_succ _) qid gq hgq,
        hsum.symm⟩
  · intro pid P hP hroot hchain
    have hpid : P.id = pid := lookupPerson_id scope pid P hP
    unfold isRoot at hroot
    rw [Bool.and_eq_true, Bool.not_eq_true', Bool.not_eq_true'] at hroot
    obtain ⟨h1, h2⟩ := hroot
    have hself : ¬(P.parentId = some pid) := by
      intro he
      unfold isSelfParent at h2
      rw [he] at h2
      simp only [hpid] at h2
      simp at h2
    rw [generationOf_eq_step]
    cases hpar : P.parentId with
    | none =>
      rw [genStep_eq_root scope _ pid P hP hself hpar]
      exact genSpouseStep_of_no_chain scope _ P hchain
    | some qid =>
      rw [genStep_eq_parent scope _ pid P qid hP hself hpar]
      have hqne : (qid == P.id) = false := by
        rw [beq_eq_false_iff_ne]
        intro he
        exact hself (by rw [hpar, he, hpid])
      unfold hasResolvableParent at h1
      simp only [hpar, hqne, Bool.not_false, Bool.true_and] at h1
      rw [if_neg (by simp [h1])]
      exact genSpouseStep_of_no_chain scope _ P hchain

theorem C1_witness :
    (∃ gq, generationOf exLinear 1 = some gq ∧ 1 = gq + 1)
      ∧ generationOf exLinear 1 = some 0 := by
  refine ⟨?_, ?_⟩
  · exact (C1_generation_law exLinear).1 2 (mkP 2 "B" Sex.female (some 1) none) 1
      (mkP 1 "A" Sex.male none none) 1 (by decide) rfl (by decide) (by decide)
  · exact (C1_generation_law exLinear).2 1 (mkP 1 "A" Sex.male none none)
      (by decide) (by decide) (by decide)

/-- C2 counterexample: in `exSpouseConflict` persons 3 and 4 are a mutual
spouse pair, both descend from the common root 1 (so they share a tree),
yet their assigned generations are 2 and 1: the spouse-generation equality
fails when both spouses own a resolvable parent chain. -/
theorem C2_counterexample :
    mutualSpouse exSpouseConflict 3 4 = true
      ∧ (ancDepthFull exSpouseConflict 3 1).isSome = true
      ∧ (ancDepthFull exSpouseConflict 4 1).isSome = true
      ∧ (1 : Nat) ∈ (buildAll exSpouseConflict).roots
      ∧ generationOf exSpouseConflict 3 = some 2
      ∧ generationOf exSpouseConflict 4 = some 1 := by
  decide

/-- C2 amended: for a mutual spouse pair (A, B) where A has no
generation-determining parent chain in scope (and B is not
self-referential), A is normalized to B's generation: whenever A is
assigned generation g, B's generation is also g. -/
theorem C2_spouse_normalization (scope : List Person) (aid bid : Nat) (A B : Person)
    (g : Nat) (hA : lookupPerson scope aid = some A) (hB : lookupPerson scope bid = some B)
    (hab : A.spouseId = some bid) (hba : B.spouseId = some aid)
    (hnp : hasResolvableParent scope A = false)
    (hbs : B.parentId ≠ some bid)
    (hg : generationOf scope aid = some g) :
    generationOf scope bid = some g := by
  have haid : A.id = aid := lookupPerson_id scope aid A hA
  have hbid : B.id = bid := lookupPerson_id scope bid B hB
  rw [generationOf_eq_step] at hg
  by_cases hself : A.parentId = some aid
  · rw [genStep_eq_self scope _ aid A hA hself] at hg
    exact absurd hg (by simp)
  · have hsp : genSpouseStep scope (genFuel scope scope.length) A = some g := by
      cases hpar : A.parentId with
      | none =>
        rw [genStep_eq_root scope _ aid A hA hself hpar] at hg
        exact hg
      | some qid =>
        rw [genStep_eq_parent scope _ aid A qid hA hself hpar] at hg
        have hqne : (qid == A.id) = false := by
          rw [beq_eq_false_iff_ne]
          intro he
          exact hself (by rw [hpar, he, haid])
        unfold hasResolvableParent at hnp
        simp only [hpar, hqne, Bool.not_false, Bool.true_and] at hnp
        rw [if_neg (by simp [hnp])] at hg
        exact hg
    unfold genSpouseStep at hsp
    simp only [hab, hB] at hsp
    by_cases hr : hasResolvableParent scope B = true
    · rw [if_pos hr] at hsp
      rw [generationOf]
      exact genFuel_mono scope scope.length (scope.length + 1) (Nat.le_succ _) bid g hsp
    · rw [if_neg hr] at hsp
      have hg0 : g = 0 := (Option.some.inj hsp).symm
      subst hg0
      have hBfalse : hasResolvableParent scope B = false := by
        cases hhh : hasResolvableParent scope B
        · rfl
        · exact absurd hhh hr
      have hBsp : genSpouseStep scope (genFuel scope scope.length) B = some 0 := by
        unfold genSpouseStep
        simp only [hba, hA]
        rw [if_neg (by simp [hnp])]
      rw [generationOf_eq_step]
      cases hparB : B.parentId with
      | none =>
        rw [genStep_eq_root scope _ bid B hB hbs hparB]
        exact hBsp
      | some qid =>
        rw [genStep_eq_parent scope _ bid B qid hB hbs hparB]
        have hqne : (qid == B.id) = false := by
          rw [beq_eq_false_iff_ne]
          intro he
          exact hbs (by rw [hparB, he, hbid])
        unfold hasResolvableParent at hBfalse
        simp only [hparB, hqne, Bool.not_false, Bool.true_and] at hBfalse
        rw [if_neg (by simp [hBfalse])]
        exact hBsp

theorem C2_witness : generationOf exMarriedIn 2 = some 1 :=
  C2_spouse_normalization exMarriedIn 3 2 (mkP 3 "W" Sex.female none (some 2))
    (mkP 2 "C" Sex.male (some 1) (some 3)) 1 (by decide) (by decide) rfl rfl
    (by decide) (by decide) (by decide)

/-- C10: the selectable tree keys offered at launch are exactly
80, kochi, ayalur, avr, radha and all, with no duplicates; before any user
input the selected key is 80; the structural test's required option values
are all offered. -/
theorem C10_launch_keys :
    launchOptions = browserExpectedOptions ∧ launchDefault = "80"
      ∧ launchDefault ∈ launchOptions ∧ launchOptions.Nodup
      ∧ structuralExpectedOptions.all (fun k => launchOptions.contains k) = true :=
  ⟨rfl, rfl, by decide, by decide, by decide⟩

theorem filterMap_congr_fun {α β : Type} (f g : α → Option β) (l : List α)
    (h : ∀ a, f a = g a) : l.filterMap f = l.filterMap g := by
  induction l with
  | nil => rfl
  | cons a l ih => simp only [List.filterMap_cons, h a, ih]

theorem junctionPairs_swap (scope : List Person) (a b : Nat) :
    junctionPairs scope b a = (junctionPairs scope a b).map (fun d => (d.2, d.1)) := by
  unfold junctionPairs
  rw [List.map_filterMap]
  apply filterMap_congr_fun
  intro j
  cases ancDepthFull scope a j.id <;> cases ancDepthFull scope b j.id <;> rfl

theorem keyMerge_comm (x y : Option (Lex (Nat × Lex (Nat × Nat)))) :
    keyMerge x y = keyMerge y x := by
  cases x <;> cases y <;> simp [keyMerge, min_comm]

theorem keyMerge_assoc (x y z : Option (Lex (Nat × Lex (Nat × Nat)))) :
    keyMerge (keyMerge x y) z = keyMerge x (keyMerge y z) := by
  cases x <;> cases y <;> cases z <;> simp [keyMerge, min_assoc]

theorem keyMerge_left_comm (x y z : Option (Lex (Nat × Lex (Nat × Nat)))) :
    keyMerge x (keyMerge y z) = keyMerge y (keyMerge x z) := by
  rw [← keyMerge_assoc, keyMerge_comm x y, keyMerge_assoc]

theorem minKey_cons (c : Nat × Nat × Bool) (l : List (Nat × Nat × Bool)) :
    minKey (c :: l) = keyMerge (some (candKey c)) (minKey l) := rfl

theorem minKey_append (l1 l2 : List (Nat × Nat × Bool)) :
    minKey (l1 ++ l2) = keyMerge (minKey l1) (minKey l2) := by
  induction l1 with
  | nil => rfl
  | cons c l ih =>
    rw [List.cons_append, minKey_cons, minKey_cons, ih, keyMerge_assoc]

theorem minKey_map (l : List (Nat × Nat × Bool)) (f : Nat × Nat × Bool → Nat × Nat × Bool)
    (h : ∀ c, candKey (f c) = candKey c) : minKey (l.map f) = minKey l := by
  induction l with
  | nil => rfl
  | cons c l ih =>
    rw [List.map_cons, minKey_cons, minKey_cons, ih, h c]

theorem candKey_swapCand (c : Nat × Nat × Bool) : candKey (swapCand c) = candKey c := by
  unfold candKey swapCand
  simp [Nat.add_comm, Nat.min_comm]

theorem mutualSpouse_comm (scope : List Person) (a b : Nat) :
    mutualSpouse scope b a = mutualSpouse scope a b := by
  unfold mutualSpouse
  rw [Bool.and_comm]

theorem bloodCands_swap (scope : List Person) (a b : Nat) :
    bloodCands scope b a = (bloodCands scope a b).map swapCand := by
  unfold bloodCands
  rw [junctionPairs_swap, List.map_map, List.map_map]
  apply List.map_congr_left
  intro d _
  rfl

theorem inlawCandsR_swap (scope : List Person) (a b : Nat) :
    inlawCandsR scope b a = (inlawCandsL scope a b).map swapCand := by
  unfold inlawCandsR inlawCandsL
  cases spouseOf scope a with
  | none => rfl
  | some sa =>
    show (junctionPairs scope b sa).map (fun d => (d.1, d.2, true))
        = ((junctionPairs scope sa b).map (fun d => (d.1, d.2, true))).map swapCand
    rw [junctionPairs_swap scope sa b, List.map_map, List.map_map]
    apply List.map_congr_left
    intro d _
    rfl

theorem inlawCandsL_swap (scope : List Person) (a b : Nat) :
    inlawCandsL scope b a = (inlawCandsR scope a b).map swapCand := by
  unfold inlawCandsR inlawCandsL
  cases spouseOf scope b with
  | none => rfl
  | some sb =>
    show (junctionPairs scope sb a).map (fun d => (d.1, d.2, true))
        = ((junctionPairs scope a sb).map (fun d => (d.1, d.2, true))).map swapCand
    rw [junctionPairs_swap scope a sb, List.map_map, List.map_map]
    apply List.map_congr_left
    intro d _
    rfl

theorem minKey_candidates_symm (scope : List Person) (a b : Nat) :
    minKey (candidates scope b a) = minKey (candidates scope a b) := by
  unfold candidates
  rw [minKey_append, minKey_append, minKey_append,
    minKey_append, minKey_append, minKey_append]
  rw [mutualSpouse_comm scope a b]
  rw [bloodCands_swap scope a b, minKey_map _ _ candKey_swapCand]
  rw [inlawCandsR_swap scope a b, minKey_map _ _ candKey_swapCand]
  rw [inlawCandsL_swap scope a b, minKey_map _ _ candKey_swapCand]
  simp only [keyMerge_assoc]
  rw [keyMerge_comm (minKey (inlawCandsL scope a b)) (minKey (inlawCandsR scope a b))]

/-- C4: the Relationship Resolver is symmetric: resolving (A, B) and
(B, A) yields the same direction-free kinship content (total edge distance,
nearer-side distance, in-law flag), hence the same `NotRelatedError`
outcome and rendered labels that can differ only in direction. -/
theorem C4_resolve_symmetric (scope : List Person) (a b : Nat) :
    resolveKin scope a b = resolveKin scope b a
      ∧ (resolveKin scope a b).map (fun r => kinLabelBase r.1 r.2.1 r.2.2)
        = (resolveKin scope b a).map (fun r => kinLabelBase r.1 r.2.1 r.2.2) := by
  have h : resolveKin scope a b = resolveKin scope b a := by
    unfold resolveKin
    rw [minKey_candidates_symm scope a b]
  exact ⟨h, by rw [h]⟩

theorem sexFromString_sexToString (x : Sex) : sexFromString (sexToString x) = x := by
  cases x <;> rfl

theorem jsonToPerson_personToJson (p : Person) : jsonToPerson (personToJson p) = .ok p := by
  cases p with
  | mk i nm sx par sp => cases par <;> cases sp <;> cases sx <;> rfl

theorem importList_map (s : List Person) : importList (s.map personToJson) = .ok s := by
  induction s with
  | nil => rfl
  | cons p t ih =>
    rw [List.map_cons]
    simp only [importList, jsonToPerson_personToJson, ih]

theorem natDigitsFuel_succ (f n : Nat) (h : n ≠ 0) :
    natDigitsFuel (f + 1) n = (n % 10) :: natDigitsFuel f (n / 10) := by
  show (if n = 0 then [] else (n % 10) :: natDigitsFuel f (n / 10)) = _
  rw [if_neg h]

theorem digitsVal_natDigitsFuel : ∀ f n, n ≤ f → digitsVal (natDigitsFuel f n) = n := by
  intro f
  induction f with
  | zero =>
    intro n h
    have h0 : n = 0 := Nat.le_zero.mp h
    subst h0
    rfl
  | succ f ih =>
    intro n h
    by_cases h0 : n = 0
    · subst h0
      rfl
    · have hstep : natDigitsFuel (f + 1) n = (n % 10) :: natDigitsFuel f (n / 10) :=
        natDigitsFuel_succ f n h0
      have hle : n / 10 ≤ f := by
        have h1 : n / 10 < n := Nat.div_lt_self (Nat.pos_of_ne_zero h0) (by norm_num)
        omega
      rw [hstep]
      show n % 10 + 10 * digitsVal (natDigitsFuel f (n / 10)) = n
      rw [ih (n / 10) hle]
      exact Nat.mod_add_div n 10

theorem natDigitsFuel_lt_ten : ∀ f n d, d ∈ natDigitsFuel f n → d < 10 := by
  intro f
  induction f with
  | zero =>
    intro n d hmem
    exact absurd hmem (by simp [natDigitsFuel])
  | succ f ih =>
    intro n d hmem
    by_cases h0 : n = 0
    · subst h0
      exact absurd hmem (by simp [natDigitsFuel])
    · unfold natDigitsFuel at hmem
      rw [if_neg h0] at hmem
      rcases List.mem_cons.mp hmem with h1 | h2
      · subst h1
        exact Nat.mod_lt n (by norm_num)
      · exact ih (n / 10) d h2

theorem charDigit?_digitChar (d : Nat) (h : d < 10) : charDigit? (digitChar d) = some d := by
  interval_cases d <;> rfl

theorem charsDigits?_map_digitChar (ds : List Nat) (h : ∀ d ∈ ds, d < 10) :
    charsDigits? (ds.map digitChar) = some ds := by
  induction ds with
  | nil => rfl
  | cons d t ih =>
    rw [List.map_cons]
    simp only [charsDigits?, charDigit?_digitChar d (h d (List.mem_cons_self d t)),
      ih (fun x hx => h x (List.mem_cons_of_mem d hx))]

theorem natDigits_ne_nil (n : Nat) (h : n ≠ 0) : natDigits n ≠ [] := by
  cases n with
  | zero => exact absurd rfl h
  | succ m =>
    show natDigitsFuel (m + 1) (m + 1) ≠ []
    rw [natDigitsFuel_succ m (m + 1) h]
    simp

theorem digitsVal_natDigits (n : Nat) : digitsVal (natDigits n) = n :=
  digitsVal_natDigitsFuel n n (Nat.le_refl n)

theorem cellToNat?_natToCell (n : Nat) : cellToNat? (natToCell n) = some n := by
  by_cases h0 : n = 0
  · subst h0
    rfl
  · have hcell : natToCell n = String.mk ((natDigits n).reverse.map digitChar) := by
      unfold natToCell
      rw [if_neg h0]
    rw [hcell]
    have hmain : ∀ l : List Char, l = (natDigits n).reverse.map digitChar →
        cellToNat? (String.mk l) = some n := by
      intro l hl
      cases l with
      | nil =>
        exfalso
        have hlen := congrArg List.length hl
        simp only [List.length_nil, List.length_map, List.length_reverse] at hlen
        exact natDigits_ne_nil n h0 (List.eq_nil_of_length_eq_zero hlen.symm)
      | cons c cs =>
        show (charsDigits? ((c :: cs).reverse)).map digitsVal = some n
        rw [hl, List.map_reverse, List.reverse_reverse]
        rw [charsDigits?_map_digitChar (natDigits n)
          (fun d hd' => natDigitsFuel_lt_ten n n d hd')]
        show some (digitsVal (natDigits n)) = some n
        rw [digitsVal_natDigits n]
    exact hmain _ rfl

theorem cellToNat?_optNatCell (o : Option Nat) : cellToNat? (optNatCell o) = o := by
  cases o with
  | none => rfl
  | some n => exact cellToNat?_natToCell n

theorem getCol_csvHeader_id (row : List String) : getCol csvHeader row "id" = row.getD 0 "" := rfl

theorem getCol_csvHeader_name (row : List String) :
    getCol csvHeader row "name" = row.getD 1 "" := rfl

theorem getCol_csvHeader_sex (row : List String) :
    getCol csvHeader row "sex" = row.getD 2 "" := rfl

theorem getCol_csvHeader_parentId (row : List String) :
    getCol csvHeader row "parentId" = row.getD 3 "" := rfl

theorem getCol_csvHeader_spouseId (row : List String) :
    getCol csvHeader row "spouseId" = row.getD 4 "" := rfl

theorem rowDecode_personToRow (p : Person) :
    (cellToNat? (getCol csvHeader (personToRow p) "id")).map (fun i =>
      ({ id := i
         name := getCol csvHeader (personToRow p) "name"
         sex := sexFromString (getCol csvHeader (personToRow p) "sex")
         parentId := cellToNat? (getCol csvHeader (personToRow p) "parentId")
         spouseId := cellToNat? (getCol csvHeader (personToRow p) "spouseId") } : Person))
      = some p := by
  rw [getCol_csvHeader_id, getCol_csvHeader_name, getCol_csvHeader_sex,
    getCol_csvHeader_parentId, getCol_csvHeader_spouseId]
  show (cellToNat? (natToCell p.id)).map (fun i =>
    ({ id := i, name := p.name, sex := sexFromString (sexToString p.sex),
       parentId := cellToNat? (optNatCell p.parentId),
       spouseId := cellToNat? (optNatCell p.spouseId) } : Person)) = some p
  rw [cellToNat?_natToCell, sexFromString_sexToString, cellToNat?_optNatCell,
    cellToNat?_optNatCell]
  rfl

theorem filterMap_eq_self {α : Type} (f : α → Option α) (l : List α)
    (h : ∀ a ∈ l, f a = some a) : l.filterMap f = l := by
  induction l with
  | nil => rfl
  | cons a t ih =>
    simp only [List.filterMap_cons, h a (List.mem_cons_self a t)]
    rw [ih (fun x hx => h x (List.mem_cons_of_mem a hx))]

/-- C3: decoding the JSON encoding of a Person Store, and decoding the CSV
encoding of the store, each reproduce the store exactly, so in particular
the same set of (id, name, sex, parentId, spouseId) tuples. -/
theorem C3_codec_roundtrip (s : List Person) :
    importJSON (exportJSON s) = .ok s ∧ importCSV (exportCSV s) = .ok s := by
  constructor
  · show importList (s.map personToJson) = Except.ok s
    exact importList_map s
  · have hred : importCSV (exportCSV s)
        = Except.ok ((s.map personToRow).filterMap (fun row =>
            (cellToNat? (getCol csvHeader row "id")).map (fun i =>
              ({ id := i
                 name := getCol csvHeader row "name"
                 sex := sexFromString (getCol csvHeader row "sex")
                 parentId := cellToNat? (getCol csvHeader row "parentId")
                 spouseId := cellToNat? (getCol csvHeader row "spouseId") } : Person)))) := rfl
    rw [hred, List.filterMap_map]
    exact congrArg Except.ok (filterMap_eq_self _ s (fun p _ => rowDecode_personToRow p))

end Heritage
